import Mathlib

/-!
Shallow embedding of the Visual Secret Sharing encoder of `src/main.js`
(`shareImage` and the fixed tables it closes over), together with proofs
of the specified properties.

Modelling conventions:
* An `ImageData` is a width, a height and a flat row-major RGBA byte
  buffer (4 bytes per pixel), exactly as the browser object used by the
  source.  Bytes are `Nat`s; the encoder only ever writes 0 and 255.
* A `Uint8ClampedArray` write at an out-of-range index is a no-op, which
  is `List.set`'s behaviour; an out-of-range read yields `undefined`,
  which compares unequal to every number — reads are modelled with
  `List.getElem?` returning `Option Nat`, so an out-of-range read is
  `none` and `none == some 0` is `false`, as in the source.
* `randInt 6` (one draw per pixel-loop iteration, used to index either
  `blackPairs` or `patterns`) is modelled by a function `rng : Nat → Fin 6`
  giving the value drawn at iteration `p`.
-/

namespace VSSS

/-- A raster as in the browser's `ImageData`: width, height and the flat
row-major RGBA byte buffer, 4 bytes per pixel. -/
structure ImageData where
  width : Nat
  height : Nat
  data : List Nat
deriving DecidableEq, Repr

/-- `ctx.createImageData(w, h)`: a `w × h` raster whose bytes are all 0. -/
def createImageData (w h : Nat) : ImageData :=
  ⟨w, h, List.replicate (4 * w * h) 0⟩

/-- The `patterns` table of `shareImage`: six 16-byte 2×2 block patterns,
copied byte for byte from the source.  The first 8 bytes are the top row
(two RGBA sub-pixels), the last 8 the bottom row. -/
def patterns : List (List Nat) :=
  [[0, 0, 0, 0, 0, 0, 0, 0,
    0, 0, 0, 255, 0, 0, 0, 255],
   [0, 0, 0, 255, 0, 0, 0, 255,
    0, 0, 0, 0, 0, 0, 0, 0],
   [0, 0, 0, 0, 0, 0, 0, 255,
    0, 0, 0, 0, 0, 0, 0, 255],
   [0, 0, 0, 255, 0, 0, 0, 0,
    0, 0, 0, 255, 0, 0, 0, 0],
   [0, 0, 0, 0, 0, 0, 0, 255,
    0, 0, 0, 255, 0, 0, 0, 0],
   [0, 0, 0, 255, 0, 0, 0, 0,
    0, 0, 0, 0, 0, 0, 0, 255]]

/-- The `blackPairs` table of `shareImage`. -/
def blackPairs : List (Nat × Nat) :=
  [(0, 1), (1, 0), (2, 3), (3, 2), (4, 5), (5, 4)]

/-- One write step of the inner `for k` loop of `shareImage`, acting on a
single output buffer: byte `k` of the pattern goes to `j + k` (top output
row of the block) and byte `k + 8` to `j + w4 + k` (bottom row; `w4` is
the output row stride `w * 4`). -/
def writeK (j w4 : Nat) (pat : List Nat) (a : List Nat) (k : Nat) : List Nat :=
  (a.set (j + k) (pat.getD k 0)).set (j + w4 + k) (pat.getD (k + 8) 0)

/-- The inner `for (k = 0; k < 8; k++)` loop of `shareImage` as it acts on
one of the two output buffers. -/
def blockWrite (d : List Nat) (j w4 : Nat) (pat : List Nat) : List Nat :=
  (List.range 8).foldl (writeK j w4 pat) d

/-- Byte offset `j` of the top-left corner of the 2×2 block of pixel-loop
iteration `p`: the source computes `i = 4*p`, `ystride = ⌊i / (sw*4)⌋ * (w*4)`
with `w = sw*2`, and `j = 2*i + ystride`. -/
def jOf (sw p : Nat) : Nat :=
  2 * (4 * p) + 4 * p / (sw * 4) * ((sw * 2) * 4)

/-- The `isBlack` test of `shareImage`: the pixel at byte index `i = 4*p`
is black iff its four channels read exactly `(0, 0, 0, 255)`.  An
out-of-range read (`undefined` in the source) compares unequal. -/
def isBlackPixel (src : ImageData) (p : Nat) : Bool :=
  (src.data[4 * p]? == some 0) && (src.data[4 * p + 1]? == some 0) &&
  (src.data[4 * p + 2]? == some 0) && (src.data[4 * p + 3]? == some 255)

/-- One iteration of the pixel loop of `shareImage`, acting on the pair of
output buffers; `rng p` is the value of `randInt 6` drawn at iteration
`p` (both tables indexed by it have length 6). -/
def encodeStep (sw : Nat) (src : ImageData) (rng : Nat → Fin 6)
    (st : List Nat × List Nat) (p : Nat) : List Nat × List Nat :=
  let j := jOf sw p
  let w4 := (sw * 2) * 4
  if isBlackPixel src p then
    let pair := blackPairs.getD (rng p).val (0, 0)
    (blockWrite st.1 j w4 (patterns.getD pair.1 []),
     blockWrite st.2 j w4 (patterns.getD pair.2 []))
  else
    let pat := patterns.getD (rng p).val []
    (blockWrite st.1 j w4 pat, blockWrite st.2 j w4 pat)

/-- Number of iterations of the pixel loop: `i` runs through `0, 4, 8, …`
while `i < src.data.length`, i.e. `⌈length / 4⌉` iterations. -/
def numPixels (src : ImageData) : Nat :=
  (src.data.length + 3) / 4

/-- `shareImage`: encode `src` into two share rasters of double width and
double height.  The two output buffers start as zero-filled `ImageData`s
of size `(sw*2) × (sh*2)` and every pixel-loop iteration writes one 2×2
block into each. -/
def shareImage (src : ImageData) (rng : Nat → Fin 6) : ImageData × ImageData :=
  let w := src.width * 2
  let h := src.height * 2
  let init := createImageData w h
  let final := (List.range (numPixels src)).foldl
    (encodeStep src.width src rng) (init.data, init.data)
  (⟨w, h, final.1⟩, ⟨w, h, final.2⟩)

/-! Observation functions used to state the specified properties. -/

/-- The pair of 16-byte patterns that iteration `p` of the pixel loop
writes into share 1 and share 2 respectively. -/
def sharePatterns (src : ImageData) (rng : Nat → Fin 6) (p : Nat) :
    List Nat × List Nat :=
  if isBlackPixel src p then
    let pair := blackPairs.getD (rng p).val (0, 0)
    (patterns.getD pair.1 [], patterns.getD pair.2 [])
  else
    let pat := patterns.getD (rng p).val []
    (pat, pat)

/-- The 16 bytes (as optional reads) of the 2×2 block of pixel `p` in an
output buffer `d` of source width `sw`: entry `m` is byte `m % 8` of output
row `2y + m / 8` of the block. -/
def blockOf (d : List Nat) (sw p : Nat) : List (Option Nat) :=
  (List.range 16).map fun m => d[jOf sw p + (sw * 2) * 4 * (m / 8) + m % 8]?

/-- The four RGBA bytes of sub-pixel `t` of a 16-byte block pattern,
row-major: `t = 0` top-left, `1` top-right, `2` bottom-left,
`3` bottom-right. -/
def subpixelOf (pat : List Nat) (t : Nat) : List Nat :=
  (pat.drop (4 * t)).take 4

/-- An opaque black sub-pixel as the encoder stores it. -/
def blackSub : List Nat := [0, 0, 0, 255]

/-- A "white" sub-pixel as the encoder stores it: fully transparent. -/
def whiteSub : List Nat := [0, 0, 0, 0]

/-- The four bytes of sub-pixel `t` of a 16-entry block observation. -/
def subpixelO (blk : List (Option Nat)) (t : Nat) : List (Option Nat) :=
  (blk.drop (4 * t)).take 4

/-- Whether sub-pixel `t` of a block observation is (opaque) black. -/
def subBlackO (blk : List (Option Nat)) (t : Nat) : Bool :=
  subpixelO blk t == blackSub.map some

/-- Black-dominant overlay: sub-pixel `t` of the overlay of two blocks is
black iff it is black in either block. -/
def overlayBlackAt (blk1 blk2 : List (Option Nat)) (t : Nat) : Bool :=
  subBlackO blk1 t || subBlackO blk2 t

/-- Whether pattern index `i` of the encoder's table is black at sub-pixel
position `t`. -/
def patternBlackAt (i t : Nat) : Bool :=
  subpixelOf (patterns.getD i []) t == blackSub

/-- Modelled from the spec: the §4.1 pattern table as the spec states it
(black/white geometry per sub-pixel, row-major), `true` = black.  Rows:
0 = W,W,W,B; 1 = W,B,W,W; 2 = W,W,B,B; 3 = B,W,B,W; 4 = W,B,B,W;
5 = B,W,W,B. -/
def specTableBlack : List (List Bool) :=
  [[false, false, false, true],
   [false, true, false, false],
   [false, false, true, true],
   [true, false, true, false],
   [false, true, true, false],
   [true, false, false, true]]

/-- The black/white geometry of the table the encoder actually uses:
0 = W,W,B,B; 1 = B,B,W,W; 2 = W,B,W,B; 3 = B,W,B,W; 4 = W,B,B,W;
5 = B,W,W,B. -/
def actualTableBlack : List (List Bool) :=
  [[false, false, true, true],
   [true, true, false, false],
   [false, true, false, true],
   [true, false, true, false],
   [false, true, true, false],
   [true, false, false, true]]

/-! Reading and length lemmas for the block-write loop. -/

theorem length_writeK (j w4 : Nat) (pat a : List Nat) (k : Nat) :
    (writeK j w4 pat a k).length = a.length := by
  simp [writeK]

theorem length_foldl_writeK (j w4 : Nat) (pat : List Nat) :
    ∀ (ks : List Nat) (a : List Nat), (ks.foldl (writeK j w4 pat) a).length = a.length
  | [], _ => rfl
  | k :: ks, a => by
    rw [List.foldl_cons, length_foldl_writeK j w4 pat ks, length_writeK]

theorem length_blockWrite (d : List Nat) (j w4 : Nat) (pat : List Nat) :
    (blockWrite d j w4 pat).length = d.length :=
  length_foldl_writeK j w4 pat (List.range 8) d

theorem getElem?_writeK_ne {j w4 k b : Nat} (pat a : List Nat)
    (h1 : b ≠ j + k) (h2 : b ≠ j + w4 + k) :
    (writeK j w4 pat a k)[b]? = a[b]? := by
  rw [writeK, List.getElem?_set_ne (Ne.symm h2), List.getElem?_set_ne (Ne.symm h1)]

theorem getElem?_foldl_writeK_notin {j w4 b : Nat} (pat : List Nat) :
    ∀ (ks : List Nat) (a : List Nat), (∀ k ∈ ks, b ≠ j + k ∧ b ≠ j + w4 + k) →
      (ks.foldl (writeK j w4 pat) a)[b]? = a[b]?
  | [], _, _ => rfl
  | k :: ks, a, h => by
    rw [List.foldl_cons,
      getElem?_foldl_writeK_notin pat ks _ (fun k' hk' => h k' (List.mem_cons_of_mem _ hk')),
      getElem?_writeK_ne pat a (h k (List.mem_cons_self k ks)).1 (h k (List.mem_cons_self k ks)).2]

theorem getElem?_foldl_writeK_top {j w4 k : Nat} (pat : List Nat) (hw : 8 ≤ w4) (hk : k < 8) :
    ∀ (ks : List Nat), (∀ k' ∈ ks, k' < 8) → k ∈ ks →
      ∀ (a : List Nat), j + k < a.length →
        (ks.foldl (writeK j w4 pat) a)[j + k]? = some (pat.getD k 0)
  | [], _, hmem, _, _ => absurd hmem (List.not_mem_nil k)
  | k0 :: ks, hlt, hmem, a, hlen => by
    rw [List.foldl_cons]
    by_cases hk' : k ∈ ks
    · exact getElem?_foldl_writeK_top pat hw hk ks
        (fun x hx => hlt x (List.mem_cons_of_mem _ hx)) hk' _
        (by rw [length_writeK]; exact hlen)
    · have hkk0 : k = k0 := by
        rcases List.mem_cons.mp hmem with h | h
        · exact h
        · exact absurd h hk'
      subst hkk0
      rw [getElem?_foldl_writeK_notin pat ks _ (fun x hx =>
        ⟨by have := hlt x (List.mem_cons_of_mem _ hx)
            have : x ≠ k := fun he => hk' (he ▸ hx)
            omega,
         by have := hlt x (List.mem_cons_of_mem _ hx); omega⟩)]
      rw [writeK, List.getElem?_set_ne (by omega), List.getElem?_set_eq_of_lt _ hlen]

theorem getElem?_foldl_writeK_bot {j w4 k : Nat} (pat : List Nat) (hw : 8 ≤ w4) (hk : k < 8) :
    ∀ (ks : List Nat), (∀ k' ∈ ks, k' < 8) → k ∈ ks →
      ∀ (a : List Nat), j + w4 + k < a.length →
        (ks.foldl (writeK j w4 pat) a)[j + w4 + k]? = some (pat.getD (k + 8) 0)
  | [], _, hmem, _, _ => absurd hmem (List.not_mem_nil k)
  | k0 :: ks, hlt, hmem, a, hlen => by
    rw [List.foldl_cons]
    by_cases hk' : k ∈ ks
    · exact getElem?_foldl_writeK_bot pat hw hk ks
        (fun x hx => hlt x (List.mem_cons_of_mem _ hx)) hk' _
        (by rw [length_writeK]; exact hlen)
    · have hkk0 : k = k0 := by
        rcases List.mem_cons.mp hmem with h | h
        · exact h
        · exact absurd h hk'
      subst hkk0
      rw [getElem?_foldl_writeK_notin pat ks _ (fun x hx =>
        ⟨by have := hlt x (List.mem_cons_of_mem _ hx); omega,
         by have := hlt x (List.mem_cons_of_mem _ hx)
            have : x ≠ k := fun he => hk' (he ▸ hx)
            omega⟩)]
      rw [writeK, List.getElem?_set_eq_of_lt _ (by rw [List.length_set]; exact hlen)]

theorem getElem?_blockWrite_top {j w4 k : Nat} (d pat : List Nat) (hw : 8 ≤ w4) (hk : k < 8)
    (hlen : j + k < d.length) :
    (blockWrite d j w4 pat)[j + k]? = some (pat.getD k 0) :=
  getElem?_foldl_writeK_top pat hw hk (List.range 8)
    (fun _ h => List.mem_range.mp h) (List.mem_range.mpr hk) d hlen

theorem getElem?_blockWrite_bot {j w4 k : Nat} (d pat : List Nat) (hw : 8 ≤ w4) (hk : k < 8)
    (hlen : j + w4 + k < d.length) :
    (blockWrite d j w4 pat)[j + w4 + k]? = some (pat.getD (k + 8) 0) :=
  getElem?_foldl_writeK_bot pat hw hk (List.range 8)
    (fun _ h => List.mem_range.mp h) (List.mem_range.mpr hk) d hlen

theorem getElem?_blockWrite_notin {j w4 b : Nat} (d pat : List Nat)
    (h : ∀ k < 8, b ≠ j + k ∧ b ≠ j + w4 + k) :
    (blockWrite d j w4 pat)[b]? = d[b]? :=
  getElem?_foldl_writeK_notin pat (List.range 8) d (fun k hk => h k (List.mem_range.mp hk))

/-! Arithmetic of the block offset `jOf`. -/

theorem jOf_eq {sw : Nat} (hsw : 0 < sw) (q r : Nat) (hr : r < sw) :
    jOf sw (q * sw + r) = 16 * q * sw + 8 * r := by
  have h4 : 4 * (q * sw + r) / (sw * 4) = q := by
    rw [Nat.mul_comm sw 4, Nat.mul_div_mul_left _ sw (by omega), Nat.mul_comm q sw,
      Nat.mul_add_div hsw, Nat.div_eq_of_lt hr, Nat.add_zero]
  rw [jOf, h4]; ring

theorem jOf_div_mod {sw : Nat} (hsw : 0 < sw) (p : Nat) :
    jOf sw p = 16 * (p / sw) * sw + 8 * (p % sw) := by
  have h : p / sw * sw + p % sw = p := by
    rw [Nat.mul_comm]; exact Nat.div_add_mod p sw
  conv_lhs => rw [← h]
  exact jOf_eq hsw _ _ (Nat.mod_lt p hsw)

theorem mul_add_lt_inj {m a b r s : Nat} (hm : 0 < m) (hr : r < m) (hs : s < m)
    (h : m * a + r = m * b + s) : a = b ∧ r = s := by
  have ha : (m * a + r) / m = a := by
    rw [Nat.mul_add_div hm, Nat.div_eq_of_lt hr, Nat.add_zero]
  have hb : (m * b + s) / m = b := by
    rw [Nat.mul_add_div hm, Nat.div_eq_of_lt hs, Nat.add_zero]
  have hab : a = b := by rw [← ha, ← hb, h]
  refine ⟨hab, ?_⟩
  subst hab
  exact Nat.add_left_cancel h

theorem region_addr_split {sw : Nat} (hsw : 0 < sw) (p d k : Nat) :
    jOf sw p + (sw * 2) * 4 * d + k
      = 8 * sw * (2 * (p / sw) + d) + (8 * (p % sw) + k) := by
  rw [jOf_div_mod hsw]; ring

theorem region_addr_inj {sw p q d d' k k' : Nat} (hsw : 0 < sw)
    (hd : d < 2) (hd' : d' < 2) (hk : k < 8) (hk' : k' < 8)
    (h : jOf sw p + (sw * 2) * 4 * d + k = jOf sw q + (sw * 2) * 4 * d' + k') :
    p = q ∧ d = d' ∧ k = k' := by
  have hxp : p % sw < sw := Nat.mod_lt p hsw
  have hxq : q % sw < sw := Nat.mod_lt q hsw
  have hp' : sw * (p / sw) + p % sw = p := Nat.div_add_mod p sw
  have hq' : sw * (q / sw) + q % sw = q := Nat.div_add_mod q sw
  rw [region_addr_split hsw, region_addr_split hsw] at h
  have h1 := mul_add_lt_inj (m := 8 * sw) (by omega) (by omega) (by omega) h
  have h2 := mul_add_lt_inj (m := 8) (by omega) (by omega) (by omega) h1.2
  refine ⟨?_, by omega, h2.2⟩
  have hy : p / sw = q / sw := by omega
  rw [← hp', ← hq', hy, h2.1]

theorem region_addr_lt {sw sh p d k : Nat} (hsw : 0 < sw) (hp : p < sw * sh)
    (hd : d < 2) (hk : k < 8) :
    jOf sw p + (sw * 2) * 4 * d + k < 4 * (sw * 2) * (sh * 2) := by
  have hxp : p % sw < sw := Nat.mod_lt p hsw
  have hyp : p / sw < sh := Nat.div_lt_of_lt_mul hp
  rw [region_addr_split hsw]
  calc 8 * sw * (2 * (p / sw) + d) + (8 * (p % sw) + k)
      < 8 * sw * (2 * (p / sw) + d) + 8 * sw := by omega
    _ = 8 * sw * (2 * (p / sw) + d + 1) := by ring
    _ ≤ 8 * sw * (2 * sh) := Nat.mul_le_mul le_rfl (by omega)
    _ = 4 * (sw * 2) * (sh * 2) := by ring

/-! The pixel loop: each iteration writes its own 2×2 block and leaves
every other block untouched. -/

theorem encodeStep_eq (sw : Nat) (src : ImageData) (rng : Nat → Fin 6)
    (st : List Nat × List Nat) (p : Nat) :
    encodeStep sw src rng st p =
      (blockWrite st.1 (jOf sw p) ((sw * 2) * 4) (sharePatterns src rng p).1,
       blockWrite st.2 (jOf sw p) ((sw * 2) * 4) (sharePatterns src rng p).2) := by
  unfold encodeStep sharePatterns
  by_cases h : isBlackPixel src p <;> simp [h]

theorem encodeStep_fst (sw : Nat) (src : ImageData) (rng : Nat → Fin 6)
    (st : List Nat × List Nat) (p : Nat) :
    (encodeStep sw src rng st p).1 =
      blockWrite st.1 (jOf sw p) ((sw * 2) * 4) (sharePatterns src rng p).1 := by
  rw [encodeStep_eq]

theorem encodeStep_snd (sw : Nat) (src : ImageData) (rng : Nat → Fin 6)
    (st : List Nat × List Nat) (p : Nat) :
    (encodeStep sw src rng st p).2 =
      blockWrite st.2 (jOf sw p) ((sw * 2) * 4) (sharePatterns src rng p).2 := by
  rw [encodeStep_eq]

theorem encodeStep_length (sw : Nat) (src : ImageData) (rng : Nat → Fin 6)
    (st : List Nat × List Nat) (p : Nat) :
    (encodeStep sw src rng st p).1.length = st.1.length ∧
    (encodeStep sw src rng st p).2.length = st.2.length := by
  rw [encodeStep_fst, encodeStep_snd]
  exact ⟨length_blockWrite _ _ _ _, length_blockWrite _ _ _ _⟩

theorem foldl_encodeStep_length (sw : Nat) (src : ImageData) (rng : Nat → Fin 6) :
    ∀ (L : List Nat) (st : List Nat × List Nat),
      (L.foldl (encodeStep sw src rng) st).1.length = st.1.length ∧
      (L.foldl (encodeStep sw src rng) st).2.length = st.2.length
  | [], _ => ⟨rfl, rfl⟩
  | q :: L, st => by
    rw [List.foldl_cons]
    have h1 := foldl_encodeStep_length sw src rng L (encodeStep sw src rng st q)
    have h2 := encodeStep_length sw src rng st q
    exact ⟨h1.1.trans h2.1, h1.2.trans h2.2⟩

theorem encodeStep_getElem?_ne {sw : Nat} (hsw : 0 < sw) {p q d k : Nat}
    (hpq : q ≠ p) (hd : d < 2) (hk : k < 8)
    (src : ImageData) (rng : Nat → Fin 6) (st : List Nat × List Nat) :
    (encodeStep sw src rng st q).1[jOf sw p + (sw * 2) * 4 * d + k]?
        = st.1[jOf sw p + (sw * 2) * 4 * d + k]? ∧
    (encodeStep sw src rng st q).2[jOf sw p + (sw * 2) * 4 * d + k]?
        = st.2[jOf sw p + (sw * 2) * 4 * d + k]? := by
  have key : ∀ k' < 8, jOf sw p + (sw * 2) * 4 * d + k ≠ jOf sw q + k' ∧
      jOf sw p + (sw * 2) * 4 * d + k ≠ jOf sw q + (sw * 2) * 4 + k' := by
    intro k' hk'
    constructor
    · intro he
      have h0 : jOf sw p + (sw * 2) * 4 * d + k = jOf sw q + (sw * 2) * 4 * 0 + k' := by
        rw [he]; ring
      exact hpq (region_addr_inj hsw hd (by omega) hk hk' h0).1.symm
    · intro he
      have h1 : jOf sw p + (sw * 2) * 4 * d + k = jOf sw q + (sw * 2) * 4 * 1 + k' := by
        rw [he]; ring
      exact hpq (region_addr_inj hsw hd (by omega) hk hk' h1).1.symm
  rw [encodeStep_fst, encodeStep_snd]
  exact ⟨getElem?_blockWrite_notin _ _ key, getElem?_blockWrite_notin _ _ key⟩

theorem foldl_encodeStep_frame {sw : Nat} (hsw : 0 < sw) {p d k : Nat}
    (hd : d < 2) (hk : k < 8) (src : ImageData) (rng : Nat → Fin 6) :
    ∀ (L : List Nat), p ∉ L → ∀ (st : List Nat × List Nat),
      (L.foldl (encodeStep sw src rng) st).1[jOf sw p + (sw * 2) * 4 * d + k]?
          = st.1[jOf sw p + (sw * 2) * 4 * d + k]? ∧
      (L.foldl (encodeStep sw src rng) st).2[jOf sw p + (sw * 2) * 4 * d + k]?
          = st.2[jOf sw p + (sw * 2) * 4 * d + k]?
  | [], _, _ => ⟨rfl, rfl⟩
  | q :: L, hmem, st => by
    rw [List.foldl_cons]
    have hqp : q ≠ p := fun h => hmem (h ▸ List.mem_cons_self q L)
    have h1 := foldl_encodeStep_frame hsw hd hk src rng L
      (fun h => hmem (List.mem_cons_of_mem _ h)) (encodeStep sw src rng st q)
    have h2 := encodeStep_getElem?_ne hsw hqp hd hk src rng st
    exact ⟨h1.1.trans h2.1, h1.2.trans h2.2⟩

theorem encodeStep_getElem?_self {sw sh : Nat} (hsw : 0 < sw) {p d k : Nat}
    (hp : p < sw * sh) (hd : d < 2) (hk : k < 8)
    (src : ImageData) (rng : Nat → Fin 6) (st : List Nat × List Nat)
    (hlen1 : st.1.length = 4 * (sw * 2) * (sh * 2))
    (hlen2 : st.2.length = 4 * (sw * 2) * (sh * 2)) :
    (encodeStep sw src rng st p).1[jOf sw p + (sw * 2) * 4 * d + k]?
        = some ((sharePatterns src rng p).1.getD (8 * d + k) 0) ∧
    (encodeStep sw src rng st p).2[jOf sw p + (sw * 2) * 4 * d + k]?
        = some ((sharePatterns src rng p).2.getD (8 * d + k) 0) := by
  have hw : 8 ≤ (sw * 2) * 4 := by omega
  rw [encodeStep_fst, encodeStep_snd]
  have hd01 : d = 0 ∨ d = 1 := by omega
  rcases hd01 with rfl | rfl
  · have haddr : jOf sw p + (sw * 2) * 4 * 0 + k = jOf sw p + k := by ring
    have hbyte : 8 * 0 + k = k := by omega
    have hb1 : jOf sw p + k < st.1.length := by
      rw [hlen1, ← haddr]; exact region_addr_lt hsw hp (by omega) hk
    have hb2 : jOf sw p + k < st.2.length := by rw [hlen2, ← hlen1]; exact hb1
    rw [haddr, hbyte]
    exact ⟨getElem?_blockWrite_top st.1 _ hw hk hb1,
      getElem?_blockWrite_top st.2 _ hw hk hb2⟩
  · have haddr : jOf sw p + (sw * 2) * 4 * 1 + k = jOf sw p + (sw * 2) * 4 + k := by ring
    have hbyte : 8 * 1 + k = k + 8 := by omega
    have hb1 : jOf sw p + (sw * 2) * 4 + k < st.1.length := by
      rw [hlen1, ← haddr]; exact region_addr_lt hsw hp (by omega) hk
    have hb2 : jOf sw p + (sw * 2) * 4 + k < st.2.length := by rw [hlen2, ← hlen1]; exact hb1
    rw [haddr, hbyte]
    exact ⟨getElem?_blockWrite_bot st.1 _ hw hk hb1,
      getElem?_blockWrite_bot st.2 _ hw hk hb2⟩

theorem shareImage_fst_data (src : ImageData) (rng : Nat → Fin 6) :
    (shareImage src rng).1.data =
      ((List.range (numPixels src)).foldl (encodeStep src.width src rng)
        ((createImageData (src.width * 2) (src.height * 2)).data,
         (createImageData (src.width * 2) (src.height * 2)).data)).1 := rfl

theorem shareImage_snd_data (src : ImageData) (rng : Nat → Fin 6) :
    (shareImage src rng).2.data =
      ((List.range (numPixels src)).foldl (encodeStep src.width src rng)
        ((createImageData (src.width * 2) (src.height * 2)).data,
         (createImageData (src.width * 2) (src.height * 2)).data)).2 := rfl

theorem numPixels_eq {src : ImageData}
    (hsize : src.data.length = 4 * src.width * src.height) :
    numPixels src = src.width * src.height := by
  have h4 : 4 * src.width * src.height = 4 * (src.width * src.height) := by ring
  rw [numPixels, hsize, h4]
  omega

/-- Master characterization: byte `8*d + k` (`d` the row inside the block,
`k` the byte inside the row) of the 2×2 block of source pixel `p` in each
output share equals the corresponding byte of the pattern the loop chose
for `p`. -/
theorem shareImage_getElem? {src : ImageData} (rng : Nat → Fin 6)
    (hsw : 0 < src.width) (hsize : src.data.length = 4 * src.width * src.height)
    {p : Nat} (hp : p < src.width * src.height) {d k : Nat} (hd : d < 2) (hk : k < 8) :
    (shareImage src rng).1.data[jOf src.width p + (src.width * 2) * 4 * d + k]?
        = some ((sharePatterns src rng p).1.getD (8 * d + k) 0) ∧
    (shareImage src rng).2.data[jOf src.width p + (src.width * 2) * 4 * d + k]?
        = some ((sharePatterns src rng p).2.getD (8 * d + k) 0) := by
  have hrange : List.range (src.width * src.height)
      = (List.range p ++ [p]) ++
        (List.range (src.width * src.height - (p + 1))).map (fun t => (p + 1) + t) := by
    rw [← List.range_succ, ← List.range_add]
    congr 1
    omega
  rw [shareImage_fst_data, shareImage_snd_data, numPixels_eq hsize, hrange,
    List.foldl_append, List.foldl_append, List.foldl_cons, List.foldl_nil]
  have hlen0 : (createImageData (src.width * 2) (src.height * 2)).data.length
      = 4 * (src.width * 2) * (src.height * 2) := by
    simp [createImageData]
  have hlen1 := foldl_encodeStep_length src.width src rng (List.range p)
    ((createImageData (src.width * 2) (src.height * 2)).data,
     (createImageData (src.width * 2) (src.height * 2)).data)
  have hself := encodeStep_getElem?_self hsw hp hd hk src rng
    ((List.range p).foldl (encodeStep src.width src rng)
      ((createImageData (src.width * 2) (src.height * 2)).data,
       (createImageData (src.width * 2) (src.height * 2)).data))
    (hlen1.1.trans hlen0) (hlen1.2.trans hlen0)
  have hnotmem : p ∉ (List.range (src.width * src.height - (p + 1))).map
      (fun t => (p + 1) + t) := by
    intro hmem
    rcases List.mem_map.mp hmem with ⟨t, _, ht⟩
    omega
  have hframe := foldl_encodeStep_frame hsw hd hk src rng
    ((List.range (src.width * src.height - (p + 1))).map (fun t => (p + 1) + t))
    hnotmem
    (encodeStep src.width src rng
      ((List.range p).foldl (encodeStep src.width src rng)
        ((createImageData (src.width * 2) (src.height * 2)).data,
         (createImageData (src.width * 2) (src.height * 2)).data)) p)
  exact ⟨hframe.1.trans hself.1, hframe.2.trans hself.2⟩

/-! Block-level characterization of the two shares. -/

theorem getElem?_eq_some_getD {l : List Nat} {m : Nat} (h : m < l.length) :
    l[m]? = some (l.getD m 0) := by
  rw [List.getD_eq_getElem?_getD, List.getElem?_eq_getElem h]
  rfl

theorem sharePatterns_black {src : ImageData} {p : Nat} (rng : Nat → Fin 6)
    (hb : isBlackPixel src p = true) :
    sharePatterns src rng p =
      (patterns.getD (blackPairs.getD (rng p).val (0, 0)).1 [],
       patterns.getD (blackPairs.getD (rng p).val (0, 0)).2 []) := by
  unfold sharePatterns
  rw [hb]
  rfl

theorem sharePatterns_white {src : ImageData} {p : Nat} (rng : Nat → Fin 6)
    (hw : isBlackPixel src p = false) :
    sharePatterns src rng p =
      (patterns.getD (rng p).val [], patterns.getD (rng p).val []) := by
  unfold sharePatterns
  rw [hw]
  rfl

theorem sharePatterns_length (src : ImageData) (rng : Nat → Fin 6) (p : Nat) :
    (sharePatterns src rng p).1.length = 16 ∧
    (sharePatterns src rng p).2.length = 16 := by
  have hblack : ∀ r : Fin 6,
      (patterns.getD (blackPairs.getD r.val (0, 0)).1 []).length = 16 ∧
      (patterns.getD (blackPairs.getD r.val (0, 0)).2 []).length = 16 := by decide
  have hwhite : ∀ r : Fin 6, (patterns.getD r.val []).length = 16 := by decide
  by_cases h : isBlackPixel src p
  · rw [sharePatterns_black rng h]
    exact hblack (rng p)
  · rw [sharePatterns_white rng (by simpa using h)]
    exact ⟨hwhite (rng p), hwhite (rng p)⟩

/-- The 2×2 block of source pixel `p` in each output share is exactly the
pattern the loop chose for `p` (as 16 successful byte reads). -/
theorem shareImage_blockOf {src : ImageData} (rng : Nat → Fin 6)
    (hsw : 0 < src.width) (hsize : src.data.length = 4 * src.width * src.height)
    {p : Nat} (hp : p < src.width * src.height) :
    blockOf (shareImage src rng).1.data src.width p
        = (sharePatterns src rng p).1.map some ∧
    blockOf (shareImage src rng).2.data src.width p
        = (sharePatterns src rng p).2.map some := by
  have hl := sharePatterns_length src rng p
  constructor
  · apply List.ext_getElem?
    intro m
    rw [blockOf, List.getElem?_map, List.getElem?_map]
    by_cases hm : m < 16
    · rw [List.getElem?_range hm,
        getElem?_eq_some_getD (show m < (sharePatterns src rng p).1.length by
          rw [hl.1]; exact hm)]
      simp only [Option.map_some']
      have hkey := (shareImage_getElem? rng hsw hsize hp
        (d := m / 8) (k := m % 8) (by omega) (by omega)).1
      rw [hkey, (by omega : 8 * (m / 8) + m % 8 = m)]
    · rw [List.getElem?_eq_none (by rw [List.length_range]; omega),
        List.getElem?_eq_none (by rw [hl.1]; omega)]
      rfl
  · apply List.ext_getElem?
    intro m
    rw [blockOf, List.getElem?_map, List.getElem?_map]
    by_cases hm : m < 16
    · rw [List.getElem?_range hm,
        getElem?_eq_some_getD (show m < (sharePatterns src rng p).2.length by
          rw [hl.2]; exact hm)]
      simp only [Option.map_some']
      have hkey := (shareImage_getElem? rng hsw hsize hp
        (d := m / 8) (k := m % 8) (by omega) (by omega)).2
      rw [hkey, (by omega : 8 * (m / 8) + m % 8 = m)]
    · rw [List.getElem?_eq_none (by rw [List.length_range]; omega),
        List.getElem?_eq_none (by rw [hl.2]; omega)]
      rfl

/-! Claim theorems. -/

/-- C1: for every ordered pair (i, j) in the fixed `blackPairs` set, the
sub-pixel-wise black-dominant OR of pattern `i` and pattern `j` is black
at all four sub-pixel positions; consequently, for every black source
pixel and whichever value the random source draws, black-overlaying the
corresponding 2×2 blocks of the two output shares yields an all-black 2×2
block. -/
theorem C1_black_pairs_cover (src : ImageData) (rng : Nat → Fin 6) (p : Nat)
    (hsw : 0 < src.width) (hsize : src.data.length = 4 * src.width * src.height)
    (hp : p < src.width * src.height) (hb : isBlackPixel src p = true) :
    (∀ pr ∈ blackPairs, ∀ t < 4,
        patternBlackAt pr.1 t = true ∨ patternBlackAt pr.2 t = true) ∧
    (∀ t < 4, overlayBlackAt
        (blockOf (shareImage src rng).1.data src.width p)
        (blockOf (shareImage src rng).2.data src.width p) t = true) := by
  have hcover : ∀ pr ∈ blackPairs, ∀ t < 4,
      patternBlackAt pr.1 t = true ∨ patternBlackAt pr.2 t = true := by decide
  have hful : ∀ r : Fin 6, ∀ t < 4, overlayBlackAt
      ((patterns.getD (blackPairs.getD r.val (0, 0)).1 []).map some)
      ((patterns.getD (blackPairs.getD r.val (0, 0)).2 []).map some) t = true := by decide
  have hblk := shareImage_blockOf rng hsw hsize hp
  refine ⟨hcover, ?_⟩
  intro t ht
  rw [hblk.1, hblk.2, sharePatterns_black rng hb]
  exact hful (rng p) t ht

/-- Witness for C1: a concrete 1×1 all-black raster with draw 0. -/
theorem C1_black_pairs_cover_witness :
    (∀ pr ∈ blackPairs, ∀ t < 4,
        patternBlackAt pr.1 t = true ∨ patternBlackAt pr.2 t = true) ∧
    (∀ t < 4, overlayBlackAt
        (blockOf (shareImage ⟨1, 1, [0, 0, 0, 255]⟩ (fun _ => (0 : Fin 6))).1.data 1 0)
        (blockOf (shareImage ⟨1, 1, [0, 0, 0, 255]⟩ (fun _ => (0 : Fin 6))).2.data 1 0)
        t = true) :=
  C1_black_pairs_cover ⟨1, 1, [0, 0, 0, 255]⟩ (fun _ => (0 : Fin 6)) 0
    (by decide) (by decide) (by decide) (by decide)

/-- C2 counterexample: the claim (after the spec's §4.1 table) says
pattern 0 is white at sub-pixel 2 (bottom-left), but the encoder's
pattern 0 is black there. -/
theorem C2_counterexample :
    patternBlackAt 0 2 = true ∧ (specTableBlack.getD 0 []).getD 2 true = false := by
  decide

/-- C2 (amended): the encoder's pattern table, read row-major, is
0 = W,W,B,B; 1 = B,B,W,W; 2 = W,B,W,B; 3 = B,W,B,W; 4 = W,B,B,W;
5 = B,W,W,B, each black sub-pixel stored as RGBA (0,0,0,255) and each
white sub-pixel stored as transparent (0,0,0,0). -/
theorem C2_pattern_table : ∀ (i : Fin 6) (t : Fin 4),
    subpixelOf (patterns.getD i.val []) t.val
      = (if (actualTableBlack.getD i.val []).getD t.val false then blackSub
         else whiteSub) := by
  decide

/-- C3 counterexample: encoding a 1×1 all-white raster with draw 0 writes
pattern 0 into share 1's single 2×2 block, and the block's top-left
sub-pixel is stored as RGBA (0,0,0,0) — its alpha is 0, not 255, and its
RGB channels are 0, not 255, although the sub-pixel is white. -/
theorem C3_counterexample :
    blockOf (shareImage ⟨1, 1, [255, 255, 255, 255]⟩
        (fun _ => (0 : Fin 6))).1.data 1 0 = (patterns.getD 0 []).map some ∧
    subpixelO (blockOf (shareImage ⟨1, 1, [255, 255, 255, 255]⟩
        (fun _ => (0 : Fin 6))).1.data 1 0) 0 = [some 0, some 0, some 0, some 0] ∧
    [some 0, some 0, some 0, some 0] ≠ (blackSub.map some) := by
  decide

/-- C3 (amended): every sub-pixel of every written 2×2 block of either
share has R=G=B=0, and its alpha channel is 255 exactly when the
sub-pixel is black and 0 (fully transparent) when it is white. -/
theorem C3_subpixel_encoding (src : ImageData) (rng : Nat → Fin 6) (p : Nat)
    (hsw : 0 < src.width) (hsize : src.data.length = 4 * src.width * src.height)
    (hp : p < src.width * src.height) :
    ∀ t : Fin 4,
      (subpixelO (blockOf (shareImage src rng).1.data src.width p) t.val
          = blackSub.map some ∨
       subpixelO (blockOf (shareImage src rng).1.data src.width p) t.val
          = whiteSub.map some) ∧
      (subpixelO (blockOf (shareImage src rng).2.data src.width p) t.val
          = blackSub.map some ∨
       subpixelO (blockOf (shareImage src rng).2.data src.width p) t.val
          = whiteSub.map some) := by
  have hauxb : ∀ r : Fin 6, ∀ t : Fin 4,
      (subpixelO ((patterns.getD (blackPairs.getD r.val (0, 0)).1 []).map some) t.val
          = blackSub.map some ∨
       subpixelO ((patterns.getD (blackPairs.getD r.val (0, 0)).1 []).map some) t.val
          = whiteSub.map some) ∧
      (subpixelO ((patterns.getD (blackPairs.getD r.val (0, 0)).2 []).map some) t.val
          = blackSub.map some ∨
       subpixelO ((patterns.getD (blackPairs.getD r.val (0, 0)).2 []).map some) t.val
          = whiteSub.map some) := by decide
  have hauxw : ∀ r : Fin 6, ∀ t : Fin 4,
      subpixelO ((patterns.getD r.val []).map some) t.val = blackSub.map some ∨
      subpixelO ((patterns.getD r.val []).map some) t.val = whiteSub.map some := by
    decide
  have hblk := shareImage_blockOf rng hsw hsize hp
  intro t
  rw [hblk.1, hblk.2]
  by_cases hb : isBlackPixel src p
  · rw [sharePatterns_black rng hb]
    exact hauxb (rng p) t
  · rw [sharePatterns_white rng (by simpa using hb)]
    exact ⟨hauxw (rng p) t, hauxw (rng p) t⟩

/-- Witness for C3 (amended) at a concrete 1×1 black raster, top-left
sub-pixel. -/
theorem C3_subpixel_encoding_witness :
    (subpixelO (blockOf (shareImage ⟨1, 1, [0, 0, 0, 255]⟩
          (fun _ => (0 : Fin 6))).1.data 1 0) (0 : Fin 4).val = blackSub.map some ∨
     subpixelO (blockOf (shareImage ⟨1, 1, [0, 0, 0, 255]⟩
          (fun _ => (0 : Fin 6))).1.data 1 0) (0 : Fin 4).val = whiteSub.map some) ∧
    (subpixelO (blockOf (shareImage ⟨1, 1, [0, 0, 0, 255]⟩
          (fun _ => (0 : Fin 6))).2.data 1 0) (0 : Fin 4).val = blackSub.map some ∨
     subpixelO (blockOf (shareImage ⟨1, 1, [0, 0, 0, 255]⟩
          (fun _ => (0 : Fin 6))).2.data 1 0) (0 : Fin 4).val = whiteSub.map some) :=
  C3_subpixel_encoding ⟨1, 1, [0, 0, 0, 255]⟩ (fun _ => (0 : Fin 6)) 0
    (by decide) (by decide) (by decide) (0 : Fin 4)

/-- C4: for every white source pixel, whichever value the random source
draws, the black-dominant overlay of the two shares' 2×2 blocks has
exactly 2 black and 2 non-black sub-pixels — never all four black and
never all four white. -/
theorem C4_white_overlay (src : ImageData) (rng : Nat → Fin 6) (p : Nat)
    (hsw : 0 < src.width) (hsize : src.data.length = 4 * src.width * src.height)
    (hp : p < src.width * src.height) (hw : isBlackPixel src p = false) :
    (List.range 4).countP (fun t => overlayBlackAt
        (blockOf (shareImage src rng).1.data src.width p)
        (blockOf (shareImage src rng).2.data src.width p) t) = 2 ∧
    (List.range 4).countP (fun t => !overlayBlackAt
        (blockOf (shareImage src rng).1.data src.width p)
        (blockOf (shareImage src rng).2.data src.width p) t) = 2 ∧
    ¬(∀ t < 4, overlayBlackAt
        (blockOf (shareImage src rng).1.data src.width p)
        (blockOf (shareImage src rng).2.data src.width p) t = true) ∧
    ¬(∀ t < 4, overlayBlackAt
        (blockOf (shareImage src rng).1.data src.width p)
        (blockOf (shareImage src rng).2.data src.width p) t = false) := by
  have haux : ∀ r : Fin 6,
      (List.range 4).countP (fun t => overlayBlackAt
          ((patterns.getD r.val []).map some) ((patterns.getD r.val []).map some) t) = 2 ∧
      (List.range 4).countP (fun t => !overlayBlackAt
          ((patterns.getD r.val []).map some) ((patterns.getD r.val []).map some) t) = 2 ∧
      ¬(∀ t < 4, overlayBlackAt
          ((patterns.getD r.val []).map some) ((patterns.getD r.val []).map some) t = true) ∧
      ¬(∀ t < 4, overlayBlackAt
          ((patterns.getD r.val []).map some) ((patterns.getD r.val []).map some) t = false) := by
    decide
  have hblk := shareImage_blockOf rng hsw hsize hp
  simp only [hblk.1, hblk.2, sharePatterns_white rng hw]
  exact haux (rng p)

/-- Witness for C4: a concrete 1×1 all-white raster with draw 0. -/
theorem C4_white_overlay_witness :
    (List.range 4).countP (fun t => overlayBlackAt
        (blockOf (shareImage ⟨1, 1, [255, 255, 255, 255]⟩ (fun _ => (0 : Fin 6))).1.data 1 0)
        (blockOf (shareImage ⟨1, 1, [255, 255, 255, 255]⟩ (fun _ => (0 : Fin 6))).2.data 1 0)
        t) = 2 ∧
    (List.range 4).countP (fun t => !overlayBlackAt
        (blockOf (shareImage ⟨1, 1, [255, 255, 255, 255]⟩ (fun _ => (0 : Fin 6))).1.data 1 0)
        (blockOf (shareImage ⟨1, 1, [255, 255, 255, 255]⟩ (fun _ => (0 : Fin 6))).2.data 1 0)
        t) = 2 ∧
    ¬(∀ t < 4, overlayBlackAt
        (blockOf (shareImage ⟨1, 1, [255, 255, 255, 255]⟩ (fun _ => (0 : Fin 6))).1.data 1 0)
        (blockOf (shareImage ⟨1, 1, [255, 255, 255, 255]⟩ (fun _ => (0 : Fin 6))).2.data 1 0)
        t = true) ∧
    ¬(∀ t < 4, overlayBlackAt
        (blockOf (shareImage ⟨1, 1, [255, 255, 255, 255]⟩ (fun _ => (0 : Fin 6))).1.data 1 0)
        (blockOf (shareImage ⟨1, 1, [255, 255, 255, 255]⟩ (fun _ => (0 : Fin 6))).2.data 1 0)
        t = false) :=
  C4_white_overlay ⟨1, 1, [255, 255, 255, 255]⟩ (fun _ => (0 : Fin 6)) 0
    (by decide) (by decide) (by decide) (by decide)

/-- C5: a source pixel is classified black iff its four channels read
exactly R=0, G=0, B=0, A=255; every other pixel value (gray, partially
transparent, …) takes the white branch — which writes the same pattern
into both shares — and no error is raised. -/
theorem C5_black_classification (src : ImageData) (rng : Nat → Fin 6) (p : Nat)
    (hsw : 0 < src.width) (hsize : src.data.length = 4 * src.width * src.height)
    (hp : p < src.width * src.height) :
    (isBlackPixel src p = true ↔
      (src.data[4 * p]? = some 0 ∧ src.data[4 * p + 1]? = some 0 ∧
       src.data[4 * p + 2]? = some 0 ∧ src.data[4 * p + 3]? = some 255)) ∧
    (isBlackPixel src p = false →
      blockOf (shareImage src rng).1.data src.width p
        = blockOf (shareImage src rng).2.data src.width p) := by
  constructor
  · rw [isBlackPixel]
    simp [Bool.and_eq_true, beq_iff_eq, and_assoc]
  · intro hw
    have hblk := shareImage_blockOf rng hsw hsize hp
    rw [hblk.1, hblk.2, sharePatterns_white rng hw]

/-- Witness for C5: a concrete 1×1 gray raster (treated as white). -/
theorem C5_black_classification_witness :
    (isBlackPixel ⟨1, 1, [128, 128, 128, 255]⟩ 0 = true ↔
      ((⟨1, 1, [128, 128, 128, 255]⟩ : ImageData).data[4 * 0]? = some 0 ∧
       (⟨1, 1, [128, 128, 128, 255]⟩ : ImageData).data[4 * 0 + 1]? = some 0 ∧
       (⟨1, 1, [128, 128, 128, 255]⟩ : ImageData).data[4 * 0 + 2]? = some 0 ∧
       (⟨1, 1, [128, 128, 128, 255]⟩ : ImageData).data[4 * 0 + 3]? = some 255)) ∧
    (isBlackPixel ⟨1, 1, [128, 128, 128, 255]⟩ 0 = false →
      blockOf (shareImage ⟨1, 1, [128, 128, 128, 255]⟩
          (fun _ => (0 : Fin 6))).1.data 1 0
        = blockOf (shareImage ⟨1, 1, [128, 128, 128, 255]⟩
          (fun _ => (0 : Fin 6))).2.data 1 0) :=
  C5_black_classification ⟨1, 1, [128, 128, 128, 255]⟩ (fun _ => (0 : Fin 6)) 0
    (by decide) (by decide) (by decide)

theorem shareImage_fst_width (src : ImageData) (rng : Nat → Fin 6) :
    (shareImage src rng).1.width = src.width * 2 := rfl

theorem shareImage_fst_height (src : ImageData) (rng : Nat → Fin 6) :
    (shareImage src rng).1.height = src.height * 2 := rfl

theorem shareImage_snd_width (src : ImageData) (rng : Nat → Fin 6) :
    (shareImage src rng).2.width = src.width * 2 := rfl

theorem shareImage_snd_height (src : ImageData) (rng : Nat → Fin 6) :
    (shareImage src rng).2.height = src.height * 2 := rfl

theorem foldl_encodeStep_congr (sw : Nat) (src : ImageData) {rng1 rng2 : Nat → Fin 6} :
    ∀ (L : List Nat), (∀ p ∈ L, rng1 p = rng2 p) → ∀ (st : List Nat × List Nat),
      L.foldl (encodeStep sw src rng1) st = L.foldl (encodeStep sw src rng2) st
  | [], _, _ => by rw [List.foldl_nil, List.foldl_nil]
  | q :: L, h, st => by
    rw [List.foldl_cons, List.foldl_cons]
    have hq : encodeStep sw src rng1 st q = encodeStep sw src rng2 st q := by
      unfold encodeStep
      rw [h q (List.mem_cons_self q L)]
    rw [hq]
    exact foldl_encodeStep_congr sw src L
      (fun p hp => h p (List.mem_cons_of_mem _ hp)) _

/-- C6: for every white source pixel a single index `r ∈ [0, 6)` is drawn
and the same `patterns[r]` is written into the corresponding 2×2 block of
both output shares, so the two shares' blocks for that pixel are
byte-for-byte identical. -/
theorem C6_white_identical_blocks (src : ImageData) (rng : Nat → Fin 6) (p : Nat)
    (hsw : 0 < src.width) (hsize : src.data.length = 4 * src.width * src.height)
    (hp : p < src.width * src.height) (hw : isBlackPixel src p = false) :
    ∃ r : Fin 6,
      blockOf (shareImage src rng).1.data src.width p
          = (patterns.getD r.val []).map some ∧
      blockOf (shareImage src rng).2.data src.width p
          = (patterns.getD r.val []).map some ∧
      blockOf (shareImage src rng).1.data src.width p
          = blockOf (shareImage src rng).2.data src.width p := by
  have hblk := shareImage_blockOf rng hsw hsize hp
  refine ⟨rng p, ?_, ?_, ?_⟩
  · rw [hblk.1, sharePatterns_white rng hw]
  · rw [hblk.2, sharePatterns_white rng hw]
  · rw [hblk.1, hblk.2, sharePatterns_white rng hw]

/-- Witness for C6: a concrete 1×1 all-white raster with draw 3. -/
theorem C6_white_identical_blocks_witness :
    ∃ r : Fin 6,
      blockOf (shareImage ⟨1, 1, [255, 255, 255, 255]⟩
          (fun _ => (3 : Fin 6))).1.data 1 0 = (patterns.getD r.val []).map some ∧
      blockOf (shareImage ⟨1, 1, [255, 255, 255, 255]⟩
          (fun _ => (3 : Fin 6))).2.data 1 0 = (patterns.getD r.val []).map some ∧
      blockOf (shareImage ⟨1, 1, [255, 255, 255, 255]⟩
          (fun _ => (3 : Fin 6))).1.data 1 0
        = blockOf (shareImage ⟨1, 1, [255, 255, 255, 255]⟩
          (fun _ => (3 : Fin 6))).2.data 1 0 :=
  C6_white_identical_blocks ⟨1, 1, [255, 255, 255, 255]⟩ (fun _ => (3 : Fin 6)) 0
    (by decide) (by decide) (by decide) (by decide)

/-- C7: the byte offset computed for source pixel (x, y) is the row-major
byte offset of output pixel (2x, 2y) in a raster of width 2·srcWidth —
channel `c` of the block's sub-pixel (dx, dy) lands exactly at output
pixel (2x+dx, 2y+dy) — and the regions written for distinct source pixels
are disjoint. -/
theorem C7_block_placement (sw : Nat) (hsw : 0 < sw) :
    (∀ x y, x < sw → ∀ dy < 2, ∀ dx < 2, ∀ c < 4,
        jOf sw (y * sw + x) + (sw * 2) * 4 * dy + (4 * dx + c)
          = ((2 * y + dy) * (2 * sw) + (2 * x + dx)) * 4 + c) ∧
    (∀ p q dp dq kp kq, p ≠ q → dp < 2 → dq < 2 → kp < 8 → kq < 8 →
        jOf sw p + (sw * 2) * 4 * dp + kp ≠ jOf sw q + (sw * 2) * 4 * dq + kq) := by
  constructor
  · intro x y hx dy _ dx _ c _
    rw [jOf_eq hsw y x hx]
    ring
  · intro p q dp dq kp kq hpq hdp hdq hkp hkq he
    exact hpq (region_addr_inj hsw hdp hdq hkp hkq he).1

/-- Witness for C7 at source width 1. -/
theorem C7_block_placement_witness :
    (∀ x y, x < 1 → ∀ dy < 2, ∀ dx < 2, ∀ c < 4,
        jOf 1 (y * 1 + x) + (1 * 2) * 4 * dy + (4 * dx + c)
          = ((2 * y + dy) * (2 * 1) + (2 * x + dx)) * 4 + c) ∧
    (∀ p q dp dq kp kq, p ≠ q → dp < 2 → dq < 2 → kp < 8 → kq < 8 →
        jOf 1 p + (1 * 2) * 4 * dp + kp ≠ jOf 1 q + (1 * 2) * 4 * dq + kq) :=
  C7_block_placement 1 (by decide)

/-- C8: the encoder produces exactly two rasters, each of width
2·srcWidth and height 2·srcHeight, with a correspondingly sized RGBA byte
buffer. -/
theorem C8_output_dimensions (src : ImageData) (rng : Nat → Fin 6)
    (_hsw : 0 < src.width) (_hsh : 0 < src.height) :
    (shareImage src rng).1.width = 2 * src.width ∧
    (shareImage src rng).1.height = 2 * src.height ∧
    (shareImage src rng).2.width = 2 * src.width ∧
    (shareImage src rng).2.height = 2 * src.height ∧
    (shareImage src rng).1.data.length = 4 * (2 * src.width) * (2 * src.height) ∧
    (shareImage src rng).2.data.length = 4 * (2 * src.width) * (2 * src.height) := by
  have hlen := foldl_encodeStep_length src.width src rng (List.range (numPixels src))
    ((createImageData (src.width * 2) (src.height * 2)).data,
     (createImageData (src.width * 2) (src.height * 2)).data)
  have hlen0 : (createImageData (src.width * 2) (src.height * 2)).data.length
      = 4 * (2 * src.width) * (2 * src.height) := by
    simp [createImageData]
    ring
  refine ⟨?_, ?_, ?_, ?_, ?_, ?_⟩
  · rw [shareImage_fst_width]; ring
  · rw [shareImage_fst_height]; ring
  · rw [shareImage_snd_width]; ring
  · rw [shareImage_snd_height]; ring
  · rw [shareImage_fst_data]
    exact hlen.1.trans hlen0
  · rw [shareImage_snd_data]
    exact hlen.2.trans hlen0

/-- Witness for C8 at a concrete 1×1 raster. -/
theorem C8_output_dimensions_witness :
    (shareImage ⟨1, 1, [0, 0, 0, 255]⟩ (fun _ => (0 : Fin 6))).1.width = 2 * 1 ∧
    (shareImage ⟨1, 1, [0, 0, 0, 255]⟩ (fun _ => (0 : Fin 6))).1.height = 2 * 1 ∧
    (shareImage ⟨1, 1, [0, 0, 0, 255]⟩ (fun _ => (0 : Fin 6))).2.width = 2 * 1 ∧
    (shareImage ⟨1, 1, [0, 0, 0, 255]⟩ (fun _ => (0 : Fin 6))).2.height = 2 * 1 ∧
    (shareImage ⟨1, 1, [0, 0, 0, 255]⟩
        (fun _ => (0 : Fin 6))).1.data.length = 4 * (2 * 1) * (2 * 1) ∧
    (shareImage ⟨1, 1, [0, 0, 0, 255]⟩
        (fun _ => (0 : Fin 6))).2.data.length = 4 * (2 * 1) * (2 * 1) :=
  C8_output_dimensions ⟨1, 1, [0, 0, 0, 255]⟩ (fun _ => (0 : Fin 6))
    (by decide) (by decide)

/-- C9: the encoder is a deterministic function of the source raster and
the sequence of random draws — two runs whose draws agree at every
pixel-loop iteration produce identical pairs of output rasters. -/
theorem C9_deterministic (src : ImageData) (rng1 rng2 : Nat → Fin 6)
    (h : ∀ p < numPixels src, rng1 p = rng2 p) :
    shareImage src rng1 = shareImage src rng2 := by
  have hfold := foldl_encodeStep_congr src.width src (List.range (numPixels src))
    (fun p hp => h p (List.mem_range.mp hp))
    ((createImageData (src.width * 2) (src.height * 2)).data,
     (createImageData (src.width * 2) (src.height * 2)).data)
  show ((⟨src.width * 2, src.height * 2,
        ((List.range (numPixels src)).foldl (encodeStep src.width src rng1)
          ((createImageData (src.width * 2) (src.height * 2)).data,
           (createImageData (src.width * 2) (src.height * 2)).data)).1⟩ : ImageData),
      (⟨src.width * 2, src.height * 2,
        ((List.range (numPixels src)).foldl (encodeStep src.width src rng1)
          ((createImageData (src.width * 2) (src.height * 2)).data,
           (createImageData (src.width * 2) (src.height * 2)).data)).2⟩ : ImageData))
    = ((⟨src.width * 2, src.height * 2,
        ((List.range (numPixels src)).foldl (encodeStep src.width src rng2)
          ((createImageData (src.width * 2) (src.height * 2)).data,
           (createImageData (src.width * 2) (src.height * 2)).data)).1⟩ : ImageData),
      (⟨src.width * 2, src.height * 2,
        ((List.range (numPixels src)).foldl (encodeStep src.width src rng2)
          ((createImageData (src.width * 2) (src.height * 2)).data,
           (createImageData (src.width * 2) (src.height * 2)).data)).2⟩ : ImageData))
  rw [hfold]

/-- Witness for C9 at a concrete 1×1 raster and equal draw sequences. -/
theorem C9_deterministic_witness :
    shareImage ⟨1, 1, [0, 0, 0, 255]⟩ (fun _ => (0 : Fin 6))
      = shareImage ⟨1, 1, [0, 0, 0, 255]⟩ (fun _ => (0 : Fin 6)) :=
  C9_deterministic ⟨1, 1, [0, 0, 0, 255]⟩ (fun _ => (0 : Fin 6))
    (fun _ => (0 : Fin 6)) (fun _ _ => rfl)

/-- C10: in every black pair the two patterns' black sub-pixel sets are
exact complements (disjoint and jointly covering all four positions);
every pattern is black at exactly two of its four sub-pixels; and the two
shares' blocks always differ for a black source pixel while they are
identical for a white one. -/
theorem C10_complementary_pairs (src : ImageData) (rng : Nat → Fin 6) (p : Nat)
    (hsw : 0 < src.width) (hsize : src.data.length = 4 * src.width * src.height)
    (hp : p < src.width * src.height) :
    (∀ pr ∈ blackPairs, ∀ t < 4,
        patternBlackAt pr.1 t = !patternBlackAt pr.2 t) ∧
    (∀ i : Fin 6, (List.range 4).countP (fun t => patternBlackAt i.val t) = 2) ∧
    (isBlackPixel src p = true →
      blockOf (shareImage src rng).1.data src.width p
        ≠ blockOf (shareImage src rng).2.data src.width p) ∧
    (isBlackPixel src p = false →
      blockOf (shareImage src rng).1.data src.width p
        = blockOf (shareImage src rng).2.data src.width p) := by
  have hcompl : ∀ pr ∈ blackPairs, ∀ t < 4,
      patternBlackAt pr.1 t = !patternBlackAt pr.2 t := by decide
  have hcount : ∀ i : Fin 6,
      (List.range 4).countP (fun t => patternBlackAt i.val t) = 2 := by decide
  have hne : ∀ r : Fin 6,
      (patterns.getD (blackPairs.getD r.val (0, 0)).1 []).map some
        ≠ (patterns.getD (blackPairs.getD r.val (0, 0)).2 []).map (some (α := Nat)) := by
    decide
  have hblk := shareImage_blockOf rng hsw hsize hp
  refine ⟨hcompl, hcount, ?_, ?_⟩
  · intro hb
    rw [hblk.1, hblk.2, sharePatterns_black rng hb]
    exact hne (rng p)
  · intro hw
    rw [hblk.1, hblk.2, sharePatterns_white rng hw]

/-- Witness for C10 at a concrete 1×1 black raster. -/
theorem C10_complementary_pairs_witness :
    (∀ pr ∈ blackPairs, ∀ t < 4,
        patternBlackAt pr.1 t = !patternBlackAt pr.2 t) ∧
    (∀ i : Fin 6, (List.range 4).countP (fun t => patternBlackAt i.val t) = 2) ∧
    (isBlackPixel ⟨1, 1, [0, 0, 0, 255]⟩ 0 = true →
      blockOf (shareImage ⟨1, 1, [0, 0, 0, 255]⟩ (fun _ => (0 : Fin 6))).1.data 1 0
        ≠ blockOf (shareImage ⟨1, 1, [0, 0, 0, 255]⟩ (fun _ => (0 : Fin 6))).2.data 1 0) ∧
    (isBlackPixel ⟨1, 1, [0, 0, 0, 255]⟩ 0 = false →
      blockOf (shareImage ⟨1, 1, [0, 0, 0, 255]⟩ (fun _ => (0 : Fin 6))).1.data 1 0
        = blockOf (shareImage ⟨1, 1, [0, 0, 0, 255]⟩ (fun _ => (0 : Fin 6))).2.data 1 0) :=
  C10_complementary_pairs ⟨1, 1, [0, 0, 0, 255]⟩ (fun _ => (0 : Fin 6)) 0
    (by decide) (by decide) (by decide)

example : patternBlackAt 0 2 = true := by decide
example : patternBlackAt 0 0 = false := by decide
example : (shareImage ⟨1, 1, [255, 255, 255, 255]⟩ (fun _ => (0 : Fin 6))).1.data =
    [0, 0, 0, 0, 0, 0, 0, 0, 0, 0, 0, 255, 0, 0, 0, 255] := by decide
example : (shareImage ⟨1, 1, [0, 0, 0, 255]⟩ (fun _ => (0 : Fin 6))).2.data =
    [0, 0, 0, 255, 0, 0, 0, 255, 0, 0, 0, 0, 0, 0, 0, 0] := by decide
example : blockOf (shareImage ⟨1, 1, [0, 0, 0, 255]⟩ (fun _ => (0 : Fin 6))).1.data 1 0 =
    (patterns.getD 0 []).map some := by decide

end VSSS
